import Mathlib

/-!
# Frame delivery core of `Decoder.cpp`

A shallow embedding of `Decoder::Init`, `Decoder::Close`, `Decoder::GetFrame` and
`Decoder::Decode` (src/src/Decoder.cpp) together with the properties of the ring buffer,
the sequence counter and the consumer registry.

Modelling conventions.

* The calls into the decode backend (ffmpeg / CUDA) are external.  Every status code they
  return, and the frame `avcodec_receive_frame` fills, is an input of the operation.
* The mutex `sync` makes the critical sections of `Decode` and `GetFrame` atomic, so a run
  of the decoder is an interleaving of whole operations.  A `GetFrame` call whose flag is
  not set stays in `consumerSync.wait`; the model returns `GetFrameResult.waiting` for it,
  and issuing the call again in a later state is the resumption of that wait.
* `currentFrame` and `bufferDeep` are declared in `Decoder.h`, which is not part of the
  sources.  They are natural numbers here: the counter is the number of frames produced,
  so every statement is about runs in which the machine counter has not wrapped around.
  `index` and `allignedIndex` are `int` in the source and integers here; on the range of
  the machine types the arithmetic of line 97 does not wrap (`allignedIndex32_eq`).
* `framesBuffer[i]` outside the vector and `av_frame_ref` on a null slot are undefined in
  the source; `GetFrame` reports them as `GetFrameResult.invalidRead`.  The slot write of
  `Decode` is always inside the vector once `Init` has sized it to `bufferDeep ≥ 1`.
-/

namespace TensorStream

/-! ## Data model -/

/-- An `AVFrame` as far as the decoder is concerned: an opaque handle. -/
structure AVFrame where
  data : Nat
  deriving DecidableEq, Repr

/-- The fields of `DecoderParameters` the decoder reads (`state.bufferDeep`,
`state.enableDumps`); `state.parser` only feeds the backend. -/
structure DecoderParameters where
  bufferDeep : Nat
  enableDumps : Bool
  deriving DecidableEq, Repr

/-- The container `std::map<std::string, bool> consumerStatus`: an association list with
one entry per key when built with `mapIndex` and `mapAssign`. -/
abbrev ConsumerMap := List (String × Bool)

/-- The data members of `Decoder` the four operations read or write. -/
structure Decoder where
  state : DecoderParameters
  framesBuffer : List (Option AVFrame)
  currentFrame : Nat
  consumerStatus : ConsumerMap
  isClosed : Bool
  deriving DecidableEq, Repr

/-- Lookup of a key without creating it. -/
def mapFind : ConsumerMap → String → Option Bool
  | [], _ => none
  | (k, v) :: m, name => if k = name then some v else mapFind m name

/-- The assignment `m[name] = v`: overwrite the entry, or create it. -/
def mapAssign : ConsumerMap → String → Bool → ConsumerMap
  | [], name, v => [(name, v)]
  | (k, b) :: m, name, v => if k = name then (k, v) :: m else (k, b) :: mapAssign m name v

/-- The read `m[name]`: `operator[]` creates a missing element with value `false`. -/
def mapIndex (m : ConsumerMap) (name : String) : ConsumerMap × Bool :=
  match mapFind m name with
  | some v => (m, v)
  | none => (mapAssign m name false, false)

/-- The call `framesBuffer.resize(n)`: keeps the first `n` elements, pads with null. -/
def resize (buf : List (Option AVFrame)) (n : Nat) : List (Option AVFrame) :=
  buf.take n ++ List.replicate (n - buf.length) none

/-! ## Init and Close -/

/-- Status codes of the four backend calls `Init` checks, in source order. -/
structure InitBackend where
  parametersToContext : Int
  cuCtxGetCurrent : Int
  hwdeviceCtxInit : Int
  avcodecOpen2 : Int
  deriving DecidableEq, Repr

/-- The method `Decoder::Init` (lines 12-42).  `CHECK_STATUS` is the test of the macro of
that name, which is defined in a header outside the sources: `CHECK_STATUS sts = true`
when the macro returns `sts` from the enclosing function. -/
def Init (CHECK_STATUS : Int → Bool) (input : DecoderParameters) (b : InitBackend)
    (d : Decoder) : Decoder × Int :=
  let d := { d with state := input }
  if CHECK_STATUS b.parametersToContext then (d, b.parametersToContext) else
  if CHECK_STATUS b.cuCtxGetCurrent then (d, b.cuCtxGetCurrent) else
  if CHECK_STATUS b.hwdeviceCtxInit then (d, b.hwdeviceCtxInit) else
  if CHECK_STATUS b.avcodecOpen2 then (d, b.avcodecOpen2) else
  ({ d with framesBuffer := resize d.framesBuffer d.state.bufferDeep, isClosed := false },
    b.avcodecOpen2)

/-- The method `Decoder::Close` (lines 44-57): every frame is freed and the vector is
cleared; nothing else of the modelled state is touched. -/
def Close (d : Decoder) : Decoder :=
  if d.isClosed then d else { d with framesBuffer := [], isClosed := true }

/-- Modelled from the spec: the initial values of the data members are set in `Decoder.h`,
which is not part of the sources (the constructor body is empty).  The spec has the
sequence counter "starting at 0" and the registry and buffer created at initialisation. -/
def constructed : Decoder :=
  { state := { bufferDeep := 0, enableDumps := false }
    framesBuffer := []
    currentFrame := 0
    consumerStatus := []
    isClosed := true }

/-- An `Init` in which every backend call succeeds. -/
def okInit : InitBackend :=
  { parametersToContext := 0, cuCtxGetCurrent := 0, hwdeviceCtxInit := 0, avcodecOpen2 := 0 }

/-- The test of `CHECK_STATUS` used in the examples: any non-zero status is a failure. -/
def nonZero (sts : Int) : Bool := decide (sts ≠ 0)

/-- A freshly initialised decoder of capacity `C`: the state a successful `Init` leaves
when called on `constructed` (for every passing test of the status, see
`Init_constructed`). -/
def fresh (C : Nat) (dumps : Bool) : Decoder :=
  (Init nonZero { bufferDeep := C, enableDumps := dumps } okInit constructed).1

/-! ## GetFrame -/

/-- What a `GetFrame` call does once it has taken the lock. -/
inductive GetFrameResult where
  /-- The flag is not set: the call stays in `consumerSync.wait(locker)`. -/
  | waiting
  /-- The statement `return REPEAT;`. -/
  | REPEAT
  /-- The statement `return currentFrame;` after `av_frame_ref(outputFrame, ...)`. -/
  | frame (currentFrame : Nat) (outputFrame : AVFrame)
  /-- The call `av_frame_ref` (or the null test) on an index outside the vector or on a
  null slot: undefined behaviour in the source. -/
  | invalidRead (allignedIndex : Int)
  deriving DecidableEq, Repr

/-- The first value of `allignedIndex` (line 97). -/
def allignedIndex (d : Decoder) (index : Int) : Int :=
  (((d.currentFrame - 1) % d.state.bufferDeep : Nat) : Int) + (if index > 0 then 0 else index)

/-- The value of line 97 when `currentFrame` and `bufferDeep` are 32-bit `unsigned int`:
the subtraction and the sum are formed modulo `2^32` and the result is converted to `int`.
See `allignedIndex32_eq`. -/
def allignedIndex32 (currentFrame bufferDeep : Nat) (index : Int) : Int :=
  let r : Nat := ((currentFrame + 4294967295) % 4294967296) % bufferDeep
  let sum : Int := ((r : Int) + (if index > 0 then 0 else index)) % 4294967296
  if sum < 2147483648 then sum else sum - 4294967296

/-- The index `GetFrame` finally uses: line 97, and line 99 when that value is negative. -/
def readIndex (d : Decoder) (index : Int) : Int :=
  if allignedIndex d index < 0 then allignedIndex d index + d.state.bufferDeep
  else allignedIndex d index

/-- Lines 97-104 of `GetFrame`: the index computation and the read, in the state `d` the
call works on once the flag is consumed. -/
def deliver (index : Int) (d : Decoder) : GetFrameResult :=
  -- line 97
  let a := allignedIndex d index
  if a < 0 then
    -- lines 99-101
    let a := a + d.state.bufferDeep
    if a < 0 then GetFrameResult.REPEAT
    else
      match d.framesBuffer[a.toNat]? with
      | none => GetFrameResult.invalidRead a
      | some none => GetFrameResult.REPEAT
      | some (some f) => GetFrameResult.frame d.currentFrame f
  else
    -- line 104
    match d.framesBuffer[a.toNat]? with
    | some (some f) => GetFrameResult.frame d.currentFrame f
    | _ => GetFrameResult.invalidRead a

/-- The method `Decoder::GetFrame` (lines 84-109). -/
def GetFrame (index : Int) (consumerName : String) (d : Decoder) : Decoder × GetFrameResult :=
  -- lines 86-88
  let created := mapIndex d.consumerStatus consumerName
  let m := if created.2 then created.1 else mapAssign created.1 consumerName false
  -- lines 92-93
  if (mapIndex m consumerName).2 = false then
    ({ d with consumerStatus := (mapIndex m consumerName).1 }, GetFrameResult.waiting)
  else
    -- line 96
    let d := { d with consumerStatus := mapAssign m consumerName false }
    (d, deliver index d)

/-! ## Decode -/

/-- The value of `AVERROR(EAGAIN)` (libavutil, `EAGAIN = 11`). -/
def AVERROR_EAGAIN : Int := -11

/-- The value of `AVERROR_EOF` (libavutil, the tag EOF). -/
def AVERROR_EOF : Int := -541478725

/-- The value of `AVERROR_INVALIDDATA` (libavutil, the tag INDA). -/
def AVERROR_INVALIDDATA : Int := -1094995529

/-- What the backend answers during one `Decode` call. -/
structure BackendReply where
  /-- Status of `avcodec_send_packet`. -/
  sendSts : Int
  /-- Status of `avcodec_receive_frame`. -/
  recvSts : Int
  /-- The frame `avcodec_receive_frame` filled. -/
  decodedFrame : AVFrame
  /-- Whether `decodedFrame->format == AV_PIX_FMT_CUDA`. -/
  isCuda : Bool
  /-- Status of `av_hwframe_transfer_data`. -/
  transferSts : Int
  /-- Status of `av_frame_copy_props`. -/
  copyPropsSts : Int
  deriving DecidableEq, Repr

/-- The guard of line 115: `Decode` returns after the submit step. -/
def sendRejected (sts : Int) : Bool :=
  decide (sts < 0) || decide (sts = AVERROR_EAGAIN) || decide (sts = AVERROR_EOF)

/-- The guard of line 120: `Decode` returns after the receive step. -/
def recvRejected (sts : Int) : Bool :=
  decide (sts = AVERROR_EAGAIN) || decide (sts = AVERROR_EOF)

/-- The block of lines 126-141, executed under the lock: slot write, counter increment,
flag broadcast. -/
def publish (f : AVFrame) (d : Decoder) : Decoder :=
  { d with
    framesBuffer := d.framesBuffer.set (d.currentFrame % d.state.bufferDeep) (some f)
    currentFrame := d.currentFrame + 1
    consumerStatus := d.consumerStatus.map (fun item => (item.1, true)) }

/-- The method `Decoder::Decode` (lines 111-163). -/
def Decode (pkt : BackendReply) (d : Decoder) : Decoder × Int :=
  if sendRejected pkt.sendSts then (d, pkt.sendSts) else
  if recvRejected pkt.recvSts then (d, pkt.recvSts) else
  let d1 := publish pkt.decodedFrame d
  if d.state.enableDumps then
    if pkt.isCuda && decide (pkt.transferSts < 0) then (d1, pkt.transferSts)
    else (d1, pkt.copyPropsSts)
  else (d1, pkt.recvSts)

/-- A reply of the Ready class: `Decode` passes both guards and reaches the locked block.
Every reply in which both steps succeed (status `0`) is of this class. -/
def BackendReply.ready (pkt : BackendReply) : Bool :=
  !sendRejected pkt.sendSts && !recvRejected pkt.recvSts

/-! ## Runs -/

/-- One operation on a running decoder. -/
inductive Op where
  | Decode (pkt : BackendReply)
  | GetFrame (index : Int) (consumerName : String)
  deriving DecidableEq, Repr

/-- The state after one operation. -/
def step (d : Decoder) : Op → Decoder
  | Op.Decode pkt => (Decode pkt d).1
  | Op.GetFrame index consumerName => (GetFrame index consumerName d).1

/-- The state after a sequence of operations. -/
def run (ops : List Op) (d : Decoder) : Decoder :=
  ops.foldl step d

/-- The frames written by a sequence of operations, oldest first: one per `Decode`
that reached the locked block. -/
def written : List Op → List AVFrame
  | [] => []
  | Op.Decode pkt :: ops => if pkt.ready then pkt.decodedFrame :: written ops else written ops
  | Op.GetFrame _ _ :: ops => written ops

/-- The largest `j < n` with `j % C = i`, when there is one. -/
def lastAt (C i : Nat) : Nat → Option Nat
  | 0 => none
  | n + 1 => if n % C = i then some n else lastAt C i n


/-! ## Auxiliary notions for the statements -/

/-- The registry after lines 86-88 of `GetFrame`: the identity is present, an existing flag
is kept, a new one is `false`. -/
def register (m : ConsumerMap) (name : String) : ConsumerMap :=
  match mapFind m name with
  | some _ => m
  | none => mapAssign m name false

/-- How many frames back from the newest a request with offset `index` asks for: positive
offsets count as `0` (line 97). -/
def lookback (index : Int) : Nat := (-index).toNat

/-- The frame slot `i` has to hold after the frames `fs` were written, oldest first, into a
ring of `C` slots: the one with the largest index of residue `i`. -/
def slotOf (fs : List AVFrame) (C i : Nat) : Option AVFrame :=
  (lastAt C i fs.length).bind (fun j => fs[j]?)

/-- The state of a decoder of capacity `C` in which the frames `fs` have been written. -/
structure Inv (C : Nat) (fs : List AVFrame) (d : Decoder) : Prop where
  cap : d.state.bufferDeep = C
  len : d.framesBuffer.length = C
  count : d.currentFrame = fs.length
  slots : ∀ i, i < C → d.framesBuffer[i]? = some (slotOf fs C i)
  flags : ∀ name, mapFind d.consumerStatus name = some true → 1 ≤ d.currentFrame

/-- The consumer `name` reads with offset 0 after every `Decode`: the results of its
`GetFrame` calls, in order. -/
def rounds (name : String) : List BackendReply → Decoder → List GetFrameResult
  | [], _ => []
  | pkt :: pkts, d =>
    (GetFrame 0 name (Decode pkt d).1).2 :: rounds name pkts (GetFrame 0 name (Decode pkt d).1).1

/-- No operation of the sequence is a `Decode` that reaches the locked block. -/
def quiet (ops : List Op) : Prop :=
  ∀ pkt, Op.Decode pkt ∈ ops → pkt.ready = false

/-- A reply in which both backend steps succeed and yield frame number `n`. -/
def okReply (n : Nat) : BackendReply :=
  { sendSts := 0, recvSts := 0, decodedFrame := { data := n }
    isCuda := false, transferSts := 0, copyPropsSts := 0 }

/-- A reply in which the submit step succeeds and the receive step reports corrupt data. -/
def corruptReply (n : Nat) : BackendReply :=
  { sendSts := 0, recvSts := AVERROR_INVALIDDATA, decodedFrame := { data := n }
    isCuda := false, transferSts := 0, copyPropsSts := 0 }

/-- A decoder of capacity 2 on which consumer "A" registered and two frames were decoded. -/
def twoFrames : Decoder :=
  run [Op.GetFrame 0 "A", Op.Decode (okReply 0), Op.Decode (okReply 1)] (fresh 2 false)

theorem fresh_eq (C : Nat) (dumps : Bool) :
    fresh C dumps
      = { state := { bufferDeep := C, enableDumps := dumps }
          framesBuffer := List.replicate C none
          currentFrame := 0
          consumerStatus := []
          isClosed := false } := by
  simp [fresh, Init, nonZero, okInit, constructed, resize]

/-- On the range of the machine types the 32-bit evaluation of line 97 is the value used in
`GetFrame`: nothing wraps while the counter is between 1 and `2^32 - 1`, the capacity at
most `2^31` and the offset an `int`. -/
theorem allignedIndex32_eq (d : Decoder) (index : Int) (h1 : 1 ≤ d.currentFrame)
    (h2 : d.currentFrame < 4294967296) (h3 : 0 < d.state.bufferDeep)
    (h4 : d.state.bufferDeep ≤ 2147483648) (h5 : -2147483648 ≤ index) :
    allignedIndex32 d.currentFrame d.state.bufferDeep index = allignedIndex d index := by
  unfold allignedIndex32 allignedIndex
  have hc : (d.currentFrame + 4294967295) % 4294967296 = d.currentFrame - 1 := by omega
  have hr := Nat.mod_lt (d.currentFrame - 1) h3
  simp only [hc]
  split <;> split <;> omega

/-! ## The consumer registry -/

theorem mapFind_mapAssign_self (m : ConsumerMap) (name : String) (v : Bool) :
    mapFind (mapAssign m name v) name = some v := by
  induction m with
  | nil => simp [mapAssign, mapFind]
  | cons e m ih =>
    obtain ⟨k, b⟩ := e
    by_cases h : k = name
    · simp [mapAssign, mapFind, h]
    · simp [mapAssign, mapFind, h, ih]

theorem mapFind_mapAssign_ne (m : ConsumerMap) (name other : String) (v : Bool)
    (h : name ≠ other) : mapFind (mapAssign m name v) other = mapFind m other := by
  induction m with
  | nil => simp [mapAssign, mapFind, h]
  | cons e m ih =>
    obtain ⟨k, b⟩ := e
    by_cases hk : k = name
    · subst hk
      simp [mapAssign, mapFind, h]
    · by_cases ho : k = other
      · subst ho
        simp [mapAssign, mapFind, hk]
      · simp [mapAssign, mapFind, hk, ho, ih]

theorem mapFind_broadcast (m : ConsumerMap) (name : String) :
    mapFind (m.map (fun item => (item.1, true))) name = (mapFind m name).map (fun _ => true) := by
  induction m with
  | nil => simp [mapFind]
  | cons e m ih =>
    obtain ⟨k, b⟩ := e
    by_cases h : k = name
    · simp [mapFind, h]
    · simp [mapFind, h, ih]

theorem mapFind_register_self (m : ConsumerMap) (name : String) :
    mapFind (register m name) name = some ((mapFind m name).getD false) := by
  unfold register
  cases h : mapFind m name with
  | none => simp [mapFind_mapAssign_self]
  | some v => simp [h]

theorem mapFind_register_ne (m : ConsumerMap) (name other : String) (h : name ≠ other) :
    mapFind (register m name) other = mapFind m other := by
  unfold register
  cases hf : mapFind m name with
  | none => simp [mapFind_mapAssign_ne _ _ _ _ h]
  | some v => simp

theorem mapAssign_of_mapFind (m : ConsumerMap) (name : String) (v : Bool)
    (h : mapFind m name = some v) : mapAssign m name v = m := by
  induction m with
  | nil => simp [mapFind] at h
  | cons e m ih =>
    obtain ⟨k, b⟩ := e
    by_cases hk : k = name
    · simp [mapFind, hk] at h
      simp [mapAssign, hk, h]
    · simp [mapFind, hk] at h
      simp [mapAssign, hk, ih h]

/-- A `GetFrame` call whose flag is not set registers the identity and waits. -/
theorem GetFrame_not_pending (index : Int) (name : String) (d : Decoder)
    (h : mapFind d.consumerStatus name ≠ some true) :
    GetFrame index name d
      = ({ d with consumerStatus := register d.consumerStatus name }, GetFrameResult.waiting) := by
  unfold GetFrame mapIndex register
  cases hf : mapFind d.consumerStatus name with
  | none =>
    simp [mapFind_mapAssign_self,
      mapAssign_of_mapFind _ _ _ (mapFind_mapAssign_self d.consumerStatus name false)]
  | some v =>
    cases v with
    | true => exact absurd hf h
    | false => simp [hf, mapFind_mapAssign_self, mapAssign_of_mapFind _ _ _ hf]

/-- A `GetFrame` call whose flag is set clears the flag and reads the buffer. -/
theorem GetFrame_pending (index : Int) (name : String) (d : Decoder)
    (h : mapFind d.consumerStatus name = some true) :
    GetFrame index name d
      = ({ d with consumerStatus := mapAssign d.consumerStatus name false }, deliver index d) := by
  unfold GetFrame mapIndex
  simp [h]
  rfl

/-! ## The ring buffer invariant -/

theorem lastAt_eq_some_iff (C i n j : Nat) :
    lastAt C i n = some j ↔ j < n ∧ j % C = i ∧ ∀ t, t < n → t % C = i → t ≤ j := by
  induction n with
  | zero => simp [lastAt]
  | succ n ih =>
    unfold lastAt
    by_cases h : n % C = i
    · simp only [h, if_true, Option.some.injEq]
      constructor
      · rintro rfl
        exact ⟨Nat.lt_succ_self _, h, fun t ht _ => Nat.le_of_lt_succ ht⟩
      · rintro ⟨hj, _, hmax⟩
        have := hmax n (Nat.lt_succ_self _) h
        omega
    · simp only [h, if_false, ih]
      constructor
      · rintro ⟨hj, hji, hmax⟩
        refine ⟨Nat.lt_succ_of_lt hj, hji, fun t ht hti => ?_⟩
        rcases Nat.lt_succ_iff_lt_or_eq.mp ht with ht | ht
        · exact hmax t ht hti
        · subst ht
          exact absurd hti h
      · rintro ⟨hj, hji, hmax⟩
        have hne : j ≠ n := by
          rintro rfl
          exact h hji
        exact ⟨by omega, hji, fun t ht hti => hmax t (Nat.lt_succ_of_lt ht) hti⟩

theorem lastAt_eq_none_iff (C i n : Nat) :
    lastAt C i n = none ↔ ∀ t, t < n → t % C ≠ i := by
  induction n with
  | zero => simp [lastAt]
  | succ n ih =>
    unfold lastAt
    by_cases h : n % C = i
    · simp only [h, if_true]
      constructor
      · intro hc
        cases hc
      · intro hall
        exact absurd h (hall n (Nat.lt_succ_self _))
    · simp only [h, if_false, ih]
      constructor
      · intro hall t ht
        rcases Nat.lt_succ_iff_lt_or_eq.mp ht with ht | ht
        · exact hall t ht
        · subst ht
          exact h
      · intro hall t ht
        exact hall t (Nat.lt_succ_of_lt ht)

theorem lastAt_lt (C i n j : Nat) (h : lastAt C i n = some j) : j < n :=
  ((lastAt_eq_some_iff C i n j).mp h).1

/-- The most recent index of a residue class is any index less than one period old. -/
theorem lastAt_recent (C n j : Nat) (hj : j < n) (hn : n ≤ j + C) :
    lastAt C (j % C) n = some j := by
  rw [lastAt_eq_some_iff]
  refine ⟨hj, rfl, fun t ht hti => ?_⟩
  by_contra hlt
  have hjt : j < t := by omega
  have hmod : (t - j) % C = 0 := Nat.sub_mod_eq_zero_of_mod_eq hti
  have hdvd : C ∣ t - j := Nat.dvd_of_mod_eq_zero hmod
  have hle : C ≤ t - j := Nat.le_of_dvd (by omega) hdvd
  omega

theorem slotOf_append (fs : List AVFrame) (f : AVFrame) (C i : Nat) :
    slotOf (fs ++ [f]) C i = if fs.length % C = i then some f else slotOf fs C i := by
  unfold slotOf
  rw [List.length_append, List.length_singleton, lastAt]
  by_cases h : fs.length % C = i
  · simp [h]
  · simp only [h, if_false]
    cases hl : lastAt C i fs.length with
    | none => rfl
    | some j =>
      have hj := lastAt_lt C i _ j hl
      simp [List.getElem?_append_left hj]

theorem Inv_fresh (C : Nat) (dumps : Bool) : Inv C [] (fresh C dumps) where
  cap := by simp [fresh_eq]
  len := by simp [fresh_eq]
  count := by simp [fresh_eq]
  slots := by
    intro i hi
    simp [fresh_eq, slotOf, lastAt, hi]
  flags := by
    intro name h
    simp [fresh_eq, mapFind] at h

theorem Inv_publish (C : Nat) (fs : List AVFrame) (d : Decoder) (f : AVFrame)
    (h : Inv C fs d) : Inv C (fs ++ [f]) (publish f d) where
  cap := h.cap
  len := by simp [publish, h.len]
  count := by simp [publish, h.count]
  slots := by
    intro i hi
    have hlen : i < d.framesBuffer.length := by rw [h.len]; exact hi
    simp only [publish, slotOf_append, h.cap, h.count]
    by_cases hs : fs.length % C = i
    · subst hs
      simp [hlen]
    · simp only [hs, if_false]
      rw [List.getElem?_set_ne hs]
      exact h.slots i hi
  flags := by
    intro name _
    simp [publish]

theorem Decode_of_ready (pkt : BackendReply) (d : Decoder) (h : pkt.ready = true) :
    (Decode pkt d).1 = publish pkt.decodedFrame d := by
  unfold BackendReply.ready at h
  simp only [Bool.and_eq_true, Bool.not_eq_true'] at h
  unfold Decode
  simp only [h.1, h.2, Bool.false_eq_true, if_false]
  split <;> [split; skip] <;> rfl

theorem Decode_of_not_ready (pkt : BackendReply) (d : Decoder) (h : pkt.ready = false) :
    (Decode pkt d).1 = d := by
  unfold BackendReply.ready at h
  unfold Decode
  cases hs : sendRejected pkt.sendSts with
  | true => simp
  | false =>
    cases hr : recvRejected pkt.recvSts with
    | true => simp
    | false => simp [hs, hr] at h

theorem mapFind_true_of_mapAssign_false (m : ConsumerMap) (name other : String)
    (h : mapFind (mapAssign m name false) other = some true) : mapFind m other = some true := by
  by_cases hn : name = other
  · subst hn
    rw [mapFind_mapAssign_self] at h
    cases h
  · rwa [mapFind_mapAssign_ne _ _ _ _ hn] at h

theorem mapFind_true_of_register (m : ConsumerMap) (name other : String)
    (h : mapFind (register m name) other = some true) : mapFind m other = some true := by
  unfold register at h
  cases hf : mapFind m name with
  | none =>
    rw [hf] at h
    exact mapFind_true_of_mapAssign_false m name other h
  | some v =>
    rw [hf] at h
    exact h

theorem GetFrame_fst (index : Int) (name : String) (d : Decoder) :
    (GetFrame index name d).1
      = { d with consumerStatus :=
            if mapFind d.consumerStatus name = some true then mapAssign d.consumerStatus name false
            else register d.consumerStatus name } := by
  by_cases h : mapFind d.consumerStatus name = some true
  · rw [GetFrame_pending index name d h, if_pos h]
  · rw [GetFrame_not_pending index name d h, if_neg h]

theorem Inv_GetFrame (C : Nat) (fs : List AVFrame) (d : Decoder) (index : Int) (name : String)
    (h : Inv C fs d) : Inv C fs (GetFrame index name d).1 := by
  rw [GetFrame_fst]
  refine ⟨h.cap, h.len, h.count, h.slots, ?_⟩
  intro other ho
  apply h.flags other
  by_cases hp : mapFind d.consumerStatus name = some true
  · simp only [hp, if_true] at ho
    exact mapFind_true_of_mapAssign_false _ _ _ ho
  · simp only [hp, if_false] at ho
    exact mapFind_true_of_register _ _ _ ho

theorem Inv_run (C : Nat) (ops : List Op) :
    ∀ (fs : List AVFrame) (d : Decoder), Inv C fs d → Inv C (fs ++ written ops) (run ops d) := by
  induction ops with
  | nil =>
    intro fs d h
    simpa [run, written] using h
  | cons op ops ih =>
    intro fs d h
    cases op with
    | Decode pkt =>
      cases hr : pkt.ready with
      | true =>
        have := ih (fs ++ [pkt.decodedFrame]) (publish pkt.decodedFrame d)
          (Inv_publish C fs d _ h)
        simpa [run, written, step, hr, Decode_of_ready pkt d hr] using this
      | false =>
        have := ih fs d h
        simpa [run, written, step, hr, Decode_of_not_ready pkt d hr] using this
    | GetFrame index name =>
      have := ih fs (GetFrame index name d).1 (Inv_GetFrame C fs d index name h)
      simpa [run, written, step] using this

/-- Every state reached from a fresh decoder satisfies the invariant for the frames the
run has written. -/
theorem Inv_reachable (C : Nat) (dumps : Bool) (ops : List Op) :
    Inv C (written ops) (run ops (fresh C dumps)) := by
  simpa using Inv_run C ops [] (fresh C dumps) (Inv_fresh C dumps)

/-! ## What a read returns -/

theorem allignedIndex_eq (d : Decoder) (index : Int) :
    allignedIndex d index
      = (((d.currentFrame - 1) % d.state.bufferDeep : Nat) : Int) - (lookback index : Int) := by
  unfold allignedIndex lookback
  split <;> omega

/-- The three ranges of the look-back, in natural numbers. -/
theorem deliver_eq (d : Decoder) (index : Int) :
    deliver index d =
      if lookback index ≤ (d.currentFrame - 1) % d.state.bufferDeep then
        match d.framesBuffer[(d.currentFrame - 1) % d.state.bufferDeep - lookback index]? with
        | some (some f) => GetFrameResult.frame d.currentFrame f
        | _ => GetFrameResult.invalidRead (allignedIndex d index)
      else if lookback index ≤ (d.currentFrame - 1) % d.state.bufferDeep + d.state.bufferDeep then
        match d.framesBuffer[(d.currentFrame - 1) % d.state.bufferDeep + d.state.bufferDeep
            - lookback index]? with
        | none => GetFrameResult.invalidRead (allignedIndex d index + d.state.bufferDeep)
        | some none => GetFrameResult.REPEAT
        | some (some f) => GetFrameResult.frame d.currentFrame f
      else GetFrameResult.REPEAT := by
  unfold deliver
  simp only []
  have ha := allignedIndex_eq d index
  by_cases h1 : lookback index ≤ (d.currentFrame - 1) % d.state.bufferDeep
  · have hn : ¬ allignedIndex d index < 0 := by omega
    have ht : (allignedIndex d index).toNat
        = (d.currentFrame - 1) % d.state.bufferDeep - lookback index := by omega
    simp only [hn, if_false, h1, if_true, ht]
  · have hn : allignedIndex d index < 0 := by omega
    simp only [hn, if_true, h1, if_false]
    by_cases h2 : lookback index ≤ (d.currentFrame - 1) % d.state.bufferDeep + d.state.bufferDeep
    · have hn2 : ¬ allignedIndex d index + d.state.bufferDeep < 0 := by omega
      have ht : (allignedIndex d index + d.state.bufferDeep).toNat
          = (d.currentFrame - 1) % d.state.bufferDeep + d.state.bufferDeep - lookback index := by
        omega
      simp only [hn2, if_false, h2, if_true, ht]
    · have hn2 : allignedIndex d index + d.state.bufferDeep < 0 := by omega
      simp only [hn2, if_true, h2, if_false]

theorem mod_sub_direct (n C k : Nat) (hC : 0 < C) (hk : k ≤ n % C) :
    (n - k) % C = n % C - k := by
  have hdiv := Nat.div_add_mod n C
  have hr := Nat.mod_lt n hC
  have : n - k = C * (n / C) + (n % C - k) := by omega
  rw [this, Nat.mul_add_mod, Nat.mod_eq_of_lt (by omega)]

theorem mod_sub_wrap (n C k : Nat) (hC : 0 < C) (h1 : n % C < k) (h2 : k ≤ n)
    (h3 : k ≤ n % C + C) : (n - k) % C = n % C + C - k := by
  have hdiv := Nat.div_add_mod n C
  have hr := Nat.mod_lt n hC
  obtain ⟨q, hq⟩ : ∃ q, n / C = q + 1 := by
    rcases Nat.eq_zero_or_pos (n / C) with h0 | hpos
    · rw [h0] at hdiv
      omega
    · exact ⟨n / C - 1, by omega⟩
  rw [hq, Nat.mul_succ] at hdiv
  have : n - k = C * q + (n % C + C - k) := by omega
  rw [this, Nat.mul_add_mod, Nat.mod_eq_of_lt (by omega)]

theorem slot_recent (C : Nat) (fs : List AVFrame) (d : Decoder) (h : Inv C fs d) (hC : 0 < C)
    (j : Nat) (hj : j < fs.length) (hn : fs.length ≤ j + C) :
    d.framesBuffer[j % C]? = some fs[j]? := by
  rw [h.slots (j % C) (Nat.mod_lt j hC)]
  simp [slotOf, lastAt_recent C fs.length j hj hn]

theorem slot_written (C : Nat) (fs : List AVFrame) (d : Decoder) (h : Inv C fs d)
    (i : Nat) (hi : i < C) (hF : i < fs.length) :
    ∃ f, d.framesBuffer[i]? = some (some f) := by
  rw [h.slots i hi]
  unfold slotOf
  cases hl : lastAt C i fs.length with
  | none =>
    rw [lastAt_eq_none_iff] at hl
    exact absurd (Nat.mod_eq_of_lt hi) (hl i hF)
  | some j =>
    have hj := lastAt_lt C i _ j hl
    exact ⟨fs[j], by simp [List.getElem?_eq_getElem hj]⟩

theorem slot_unwritten (C : Nat) (fs : List AVFrame) (d : Decoder) (h : Inv C fs d)
    (i : Nat) (hi : i < C) (hF : fs.length ≤ i) :
    d.framesBuffer[i]? = some none := by
  rw [h.slots i hi]
  have hl : lastAt C i fs.length = none := by
    rw [lastAt_eq_none_iff]
    intro t ht
    rw [Nat.mod_eq_of_lt (by omega)]
    omega
  simp [slotOf, hl]

/-- A look-back within the capacity and within the frames written reads that frame. -/
theorem deliver_within (C : Nat) (fs : List AVFrame) (d : Decoder) (h : Inv C fs d)
    (hC : 0 < C) (index : Int) (hk : lookback index < C) (hF : lookback index < fs.length) :
    ∃ f, fs[fs.length - 1 - lookback index]? = some f
      ∧ deliver index d = GetFrameResult.frame fs.length f := by
  have hlen : fs.length - 1 - lookback index < fs.length := by omega
  refine ⟨fs[fs.length - 1 - lookback index], List.getElem?_eq_getElem hlen, ?_⟩
  have hrec := slot_recent C fs d h hC (fs.length - 1 - lookback index) hlen (by omega)
  have hr := Nat.mod_lt (fs.length - 1) hC
  rw [deliver_eq, h.cap, h.count]
  by_cases h1 : lookback index ≤ (fs.length - 1) % C
  · rw [if_pos h1, ← mod_sub_direct _ _ _ hC h1, hrec, List.getElem?_eq_getElem hlen]
  · rw [if_neg h1, if_pos (by omega),
      ← mod_sub_wrap _ _ _ hC (by omega) (by omega) (by omega), hrec,
      List.getElem?_eq_getElem hlen]

/-- A look-back within the capacity but past the first frame finds an empty slot. -/
theorem deliver_unwritten (C : Nat) (fs : List AVFrame) (d : Decoder) (h : Inv C fs d)
    (index : Int) (hk : lookback index < C) (h1 : 1 ≤ fs.length)
    (hF : fs.length ≤ lookback index) :
    deliver index d = GetFrameResult.REPEAT := by
  have hmod : (fs.length - 1) % C = fs.length - 1 := Nat.mod_eq_of_lt (by omega)
  rw [deliver_eq, h.cap, h.count, hmod, if_neg (by omega), if_pos (by omega),
    slot_unwritten C fs d h _ (by omega) (by omega)]

/-- A look-back of a whole capacity or more, on a full buffer: the index wraps around once
and lands on a newer frame unless it is still negative after the wrap. -/
theorem deliver_beyond (C : Nat) (fs : List AVFrame) (d : Decoder) (h : Inv C fs d)
    (hC : 0 < C) (index : Int) (hk : C ≤ lookback index) (hF : C ≤ fs.length) :
    (lookback index ≤ (fs.length - 1) % C + C →
      ∃ f, fs[fs.length - 1 - (lookback index - C)]? = some f
        ∧ deliver index d = GetFrameResult.frame fs.length f)
    ∧ ((fs.length - 1) % C + C < lookback index → deliver index d = GetFrameResult.REPEAT) := by
  have hr := Nat.mod_lt (fs.length - 1) hC
  constructor
  · intro h2
    have hlen : fs.length - 1 - (lookback index - C) < fs.length := by omega
    refine ⟨fs[fs.length - 1 - (lookback index - C)], List.getElem?_eq_getElem hlen, ?_⟩
    have hrec := slot_recent C fs d h hC (fs.length - 1 - (lookback index - C)) hlen (by omega)
    have hidx : (fs.length - 1) % C + C - lookback index
        = (fs.length - 1 - (lookback index - C)) % C := by
      have := mod_sub_direct (fs.length - 1) C (lookback index - C) hC (by omega)
      omega
    rw [deliver_eq, h.cap, h.count, if_neg (by omega), if_pos h2, hidx, hrec,
      List.getElem?_eq_getElem hlen]
  · intro h2
    rw [deliver_eq, h.cap, h.count, if_neg (by omega), if_neg (by omega)]

/-- Once a frame has been written a read is either refused or made on a written slot
inside the vector. -/
theorem deliver_sound (C : Nat) (fs : List AVFrame) (d : Decoder) (h : Inv C fs d)
    (hC : 0 < C) (h1 : 1 ≤ fs.length) (index : Int) :
    deliver index d = GetFrameResult.REPEAT
    ∨ ∃ f, deliver index d = GetFrameResult.frame d.currentFrame f
        ∧ 0 ≤ readIndex d index ∧ readIndex d index < C
        ∧ d.framesBuffer[(readIndex d index).toNat]? = some (some f) := by
  have hr := Nat.mod_lt (fs.length - 1) hC
  have ha := allignedIndex_eq d index
  rw [h.cap, h.count] at ha
  rw [deliver_eq, h.cap, h.count]
  unfold readIndex
  rw [h.cap]
  by_cases c1 : lookback index ≤ (fs.length - 1) % C
  · right
    have hn : ¬ allignedIndex d index < 0 := by omega
    have ht : (allignedIndex d index).toNat = (fs.length - 1) % C - lookback index := by omega
    have hlt : (fs.length - 1) % C ≤ fs.length - 1 := Nat.mod_le _ _
    obtain ⟨f, hf⟩ := slot_written C fs d h ((fs.length - 1) % C - lookback index)
      (by omega) (by omega)
    refine ⟨f, ?_, ?_⟩
    · rw [if_pos c1, hf]
    · rw [if_neg hn, ht]
      exact ⟨by omega, by omega, hf⟩
  · rw [if_neg c1]
    by_cases c2 : lookback index ≤ (fs.length - 1) % C + C
    · rw [if_pos c2]
      have hn : allignedIndex d index < 0 := by omega
      have ht : (allignedIndex d index + C).toNat
          = (fs.length - 1) % C + C - lookback index := by omega
      have hs := h.slots ((fs.length - 1) % C + C - lookback index) (by omega)
      cases hv : slotOf fs C ((fs.length - 1) % C + C - lookback index) with
      | none =>
        left
        rw [hs, hv]
      | some f =>
        right
        refine ⟨f, by rw [hs, hv], ?_⟩
        rw [if_pos hn, ht, hs, hv]
        exact ⟨by omega, by omega, rfl⟩
    · left
      rw [if_neg c2]

theorem lookback_neg (k : Nat) : lookback (-(k : Int)) = k := by
  unfold lookback
  omega

theorem deliver_ne_waiting (index : Int) (d : Decoder) :
    deliver index d ≠ GetFrameResult.waiting := by
  unfold deliver
  simp only []
  split
  · split
    · simp
    · split <;> simp
  · split <;> simp

/-- A successful `Init` on a constructed decoder leaves the fresh state. -/
theorem Init_constructed (CHECK_STATUS : Int → Bool) (input : DecoderParameters)
    (b : InitBackend) (h1 : CHECK_STATUS b.parametersToContext = false)
    (h2 : CHECK_STATUS b.cuCtxGetCurrent = false) (h3 : CHECK_STATUS b.hwdeviceCtxInit = false)
    (h4 : CHECK_STATUS b.avcodecOpen2 = false) :
    Init CHECK_STATUS input b constructed
      = (fresh input.bufferDeep input.enableDumps, b.avcodecOpen2) := by
  simp [Init, h1, h2, h3, h4, constructed, fresh_eq, resize]

/-! ## Look-back (C1, C2) -/

/-- C1: in a state reached from a freshly initialised decoder of capacity `C ≥ 1` by a run
that wrote `F ≥ 1` frames, a `GetFrame` with offset `-k`, `k < C`, by a consumer whose
pending flag is set returns the counter `F` and the frame of decode number `F-1-k` when
`k < F`, and returns `REPEAT` when `F ≤ k`. -/
theorem lookback_within_capacity (C : Nat) (dumps : Bool) (ops : List Op) (k : Nat)
    (name : String) (hC : 1 ≤ C) (hF : 1 ≤ (written ops).length) (hk : k < C)
    (hflag : mapFind (run ops (fresh C dumps)).consumerStatus name = some true) :
    (k < (written ops).length →
      ∃ f, (written ops)[(written ops).length - 1 - k]? = some f
        ∧ (GetFrame (-(k : Int)) name (run ops (fresh C dumps))).2
            = GetFrameResult.frame (written ops).length f)
    ∧ ((written ops).length ≤ k →
        (GetFrame (-(k : Int)) name (run ops (fresh C dumps))).2 = GetFrameResult.REPEAT) := by
  have hinv := Inv_reachable C dumps ops
  rw [GetFrame_pending _ name _ hflag]
  constructor
  · intro hlt
    have := deliver_within C (written ops) _ hinv hC (-(k : Int))
      (by rw [lookback_neg]; exact hk) (by rw [lookback_neg]; exact hlt)
    rw [lookback_neg] at this
    exact this
  · intro hle
    exact deliver_unwritten C (written ops) _ hinv (-(k : Int))
      (by rw [lookback_neg]; exact hk) hF (by rw [lookback_neg]; exact hle)

/-- Scenario B of the specification, an instance of C1: capacity 2, one frame decoded, offset
`-1` gives `REPEAT`. -/
theorem lookback_within_capacity_witness :
    (GetFrame (-((1 : Nat) : Int)) "A"
      (run [Op.GetFrame 0 "A", Op.Decode (okReply 0)] (fresh 2 false))).2
      = GetFrameResult.REPEAT :=
  (lookback_within_capacity 2 false [Op.GetFrame 0 "A", Op.Decode (okReply 0)] 1 "A"
    (by decide) (by decide) (by decide) (by decide)).2 (by decide)

/-- What `GetFrame` does for a look-back of a whole capacity or more on a full buffer: for
`C ≤ k ≤ (F-1) mod C + C` it hands out the frame of decode number `F-1-(k-C)`, a frame
`C` positions newer than the one asked for; only beyond that bound it returns `REPEAT`. -/
theorem GetFrame_beyond_capacity (C : Nat) (dumps : Bool) (ops : List Op) (k : Nat)
    (name : String) (hC : 1 ≤ C) (hF : C ≤ (written ops).length) (hk : C ≤ k)
    (hflag : mapFind (run ops (fresh C dumps)).consumerStatus name = some true) :
    (k ≤ ((written ops).length - 1) % C + C →
      ∃ f, (written ops)[(written ops).length - 1 - (k - C)]? = some f
        ∧ (GetFrame (-(k : Int)) name (run ops (fresh C dumps))).2
            = GetFrameResult.frame (written ops).length f)
    ∧ (((written ops).length - 1) % C + C < k →
        (GetFrame (-(k : Int)) name (run ops (fresh C dumps))).2 = GetFrameResult.REPEAT) := by
  have hinv := Inv_reachable C dumps ops
  rw [GetFrame_pending _ name _ hflag]
  have := deliver_beyond C (written ops) _ hinv hC (-(k : Int))
    (by rw [lookback_neg]; exact hk) hF
  rw [lookback_neg] at this
  exact this

/-- C2 (evaluation at the failing input): capacity 2, two frames decoded, offset `-2`.  The
call does not return `REPEAT`; it hands out the newest frame, the one of the second decode. -/
theorem lookback_of_capacity_not_refused :
    (GetFrame (-2) "A" twoFrames).2 = GetFrameResult.frame 2 { data := 1 } := by
  decide

/-! ## Reads stay inside written slots (C10) -/

/-- An error of the submit step: `Decode` returns it and changes nothing. -/
theorem Decode_submit_error (pkt : BackendReply) (d : Decoder) (h : pkt.sendSts < 0) :
    Decode pkt d = (d, pkt.sendSts) := by
  simp [Decode, sendRejected, h]

/-- The two statuses the receive step is tested for: `Decode` returns them and changes
nothing. -/
theorem Decode_receive_not_ready (pkt : BackendReply) (d : Decoder)
    (hs : sendRejected pkt.sendSts = false)
    (h : pkt.recvSts = AVERROR_EAGAIN ∨ pkt.recvSts = AVERROR_EOF) :
    Decode pkt d = (d, pkt.recvSts) := by
  have hr : recvRejected pkt.recvSts = true := by
    unfold recvRejected
    rcases h with h | h <;> simp [h]
  simp [Decode, hs, hr]

/-- Any other error of the receive step: with diagnostics disabled `Decode` returns it, but
only after the slot write, the counter increment and the flag broadcast. -/
theorem Decode_receive_error (pkt : BackendReply) (d : Decoder)
    (hs : sendRejected pkt.sendSts = false) (_hneg : pkt.recvSts < 0)
    (h1 : pkt.recvSts ≠ AVERROR_EAGAIN) (h2 : pkt.recvSts ≠ AVERROR_EOF)
    (hd : d.state.enableDumps = false) :
    Decode pkt d = (publish pkt.decodedFrame d, pkt.recvSts) := by
  have hr : recvRejected pkt.recvSts = false := by
    simp [recvRejected, h1, h2]
  simp [Decode, hs, hr, hd]

/-- C3 (evaluation at the failing input): capacity 2, two frames decoded and read by "A",
diagnostics disabled; the submit step succeeds and the receive step reports
`AVERROR_INVALIDDATA`.  `Decode` returns that error, and slot 0, the counter and the
pending flag of "A" have all changed. -/
theorem Decode_receive_error_mutates :
    (GetFrame 0 "A" twoFrames).1
      = { state := { bufferDeep := 2, enableDumps := false }
          framesBuffer := [some { data := 0 }, some { data := 1 }]
          currentFrame := 2
          consumerStatus := [("A", false)]
          isClosed := false }
    ∧ Decode (corruptReply 7) (GetFrame 0 "A" twoFrames).1
      = ({ state := { bufferDeep := 2, enableDumps := false }
           framesBuffer := [some { data := 7 }, some { data := 1 }]
           currentFrame := 3
           consumerStatus := [("A", true)]
           isClosed := false }, AVERROR_INVALIDDATA) := by
  decide

/-! ## The ring buffer invariant, as stated (C5) -/

/-- C5: in every state reached from a freshly initialised decoder of capacity `C` by
`Decode` and `GetFrame` operations the counter is the number of frames written, the buffer
has `C` slots, and slot `i < C` is empty when no frame number `j` has `j mod C = i` and
otherwise holds the frame with the largest such number. -/
theorem residue_invariant (C : Nat) (dumps : Bool) (ops : List Op) :
    (run ops (fresh C dumps)).currentFrame = (written ops).length
    ∧ (run ops (fresh C dumps)).framesBuffer.length = C
    ∧ ∀ i, i < C →
        ((∀ j, j < (written ops).length → j % C ≠ i) →
          (run ops (fresh C dumps)).framesBuffer[i]? = some none)
        ∧ (∀ j f, (written ops)[j]? = some f → j % C = i →
            (∀ t, t < (written ops).length → t % C = i → t ≤ j) →
            (run ops (fresh C dumps)).framesBuffer[i]? = some (some f)) := by
  have hinv := Inv_reachable C dumps ops
  refine ⟨hinv.count, hinv.len, fun i hi => ⟨?_, ?_⟩⟩
  · intro hnone
    rw [hinv.slots i hi]
    have hl : lastAt C i (written ops).length = none := (lastAt_eq_none_iff C i _).mpr hnone
    simp [slotOf, hl]
  · intro j f hf hji hmax
    rw [hinv.slots i hi]
    have hj : j < (written ops).length := by
      by_contra hge
      rw [List.getElem?_eq_none (by omega)] at hf
      cases hf
    have hl : lastAt C i (written ops).length = some j :=
      (lastAt_eq_some_iff C i _ j).mpr ⟨hj, hji, hmax⟩
    simp [slotOf, hl, hf]

/-- An instance of C5: capacity 2, three frames written; slot 0 holds frame 2, the largest
even frame number. -/
theorem residue_invariant_witness :
    (run [Op.Decode (okReply 0), Op.Decode (okReply 1), Op.Decode (okReply 2)]
      (fresh 2 false)).framesBuffer[0]? = some (some { data := 2 }) :=
  ((residue_invariant 2 false
    [Op.Decode (okReply 0), Op.Decode (okReply 1), Op.Decode (okReply 2)]).2.2
    0 (by decide)).2 2 { data := 2 } (by decide) (by decide) (by decide)

/-! ## Delivery (C4, C6, C7, C9) -/

theorem run_append (ops1 ops2 : List Op) (d : Decoder) :
    run (ops1 ++ ops2) d = run ops2 (run ops1 d) := by
  simp [run, List.foldl_append]

theorem written_append (ops1 ops2 : List Op) :
    written (ops1 ++ ops2) = written ops1 ++ written ops2 := by
  induction ops1 with
  | nil => simp [written]
  | cons op ops ih =>
    cases op with
    | Decode pkt =>
      cases hr : pkt.ready <;> simp [written, hr, ih]
    | GetFrame index name => simp [written, ih]

theorem quiet_cons (op : Op) (ops : List Op) (h : quiet (op :: ops)) : quiet ops :=
  fun pkt hp => h pkt (List.mem_cons_of_mem _ hp)

theorem written_quiet (ops : List Op) (h : quiet ops) : written ops = [] := by
  induction ops with
  | nil => rfl
  | cons op ops ih =>
    cases op with
    | Decode pkt =>
      have hr : pkt.ready = false := h pkt (List.mem_cons_self _ _)
      simp [written, hr, ih (quiet_cons _ _ h)]
    | GetFrame index name => simp [written, ih (quiet_cons _ _ h)]

/-- The flag of a consumer that is registered and not pending stays so as long as no
`Decode` reaches the locked block. -/
theorem quiet_keeps_flag (name : String) (ops : List Op) :
    ∀ d : Decoder, quiet ops → mapFind d.consumerStatus name = some false →
      mapFind (run ops d).consumerStatus name = some false := by
  induction ops with
  | nil =>
    intro d _ h
    exact h
  | cons op ops ih =>
    intro d hq h
    have hstep : mapFind (step d op).consumerStatus name = some false := by
      cases op with
      | Decode pkt =>
        have hr : pkt.ready = false := hq pkt (List.mem_cons_self _ _)
        simp only [step, Decode_of_not_ready pkt d hr]
        exact h
      | GetFrame index other =>
        simp only [step, GetFrame_fst]
        by_cases ho : other = name
        · subst ho
          simp [h, register]
        · by_cases hp : mapFind d.consumerStatus other = some true
          · simp only [hp, if_true]
            rw [mapFind_mapAssign_ne _ _ _ _ ho]
            exact h
          · simp only [hp, if_false]
            rw [mapFind_register_ne _ _ _ ho]
            exact h
    exact ih (step d op) (quiet_cons _ _ hq) hstep

/-- After the locked block of `Decode` a read with offset 0 returns the new counter and the
frame just written. -/
theorem deliver_newest (C : Nat) (fs : List AVFrame) (d : Decoder) (f : AVFrame)
    (h : Inv C fs d) (hC : 0 < C) :
    deliver 0 (publish f d) = GetFrameResult.frame (fs.length + 1) f := by
  have hinv := Inv_publish C fs d f h
  have hk : lookback 0 = 0 := rfl
  obtain ⟨g, hg, hd⟩ := deliver_within C (fs ++ [f]) _ hinv hC 0
    (by rw [hk]; exact hC) (by rw [hk]; simp)
  rw [hk] at hg
  simp at hg
  rw [hd, ← hg]
  simp

theorem publish_flag (f : AVFrame) (d : Decoder) (name : String)
    (h : mapFind d.consumerStatus name ≠ none) :
    mapFind (publish f d).consumerStatus name = some true := by
  simp only [publish, mapFind_broadcast]
  cases hf : mapFind d.consumerStatus name with
  | none => exact absurd hf h
  | some v => rfl

/-- A registered consumer reading with offset 0 right after a `Decode` of the Ready class:
the call completes with the new counter and the new frame, and consumes its flag. -/
theorem GetFrame_after_Decode (C : Nat) (fs : List AVFrame) (d : Decoder) (pkt : BackendReply)
    (name : String) (h : Inv C fs d) (hC : 0 < C) (hr : pkt.ready = true)
    (hreg : mapFind d.consumerStatus name ≠ none) :
    GetFrame 0 name (Decode pkt d).1
      = ({ publish pkt.decodedFrame d with
            consumerStatus := mapAssign (publish pkt.decodedFrame d).consumerStatus name false },
          GetFrameResult.frame (fs.length + 1) pkt.decodedFrame) := by
  rw [Decode_of_ready pkt d hr,
    GetFrame_pending 0 name _ (publish_flag pkt.decodedFrame d name hreg),
    deliver_newest C fs d pkt.decodedFrame h hC]

theorem rounds_length (name : String) (pkts : List BackendReply) :
    ∀ d : Decoder, (rounds name pkts d).length = pkts.length := by
  induction pkts with
  | nil => intro d; rfl
  | cons pkt pkts ih => intro d; simp [rounds, ih]

theorem rounds_get (C : Nat) (name : String) (hC : 0 < C) (pkts : List BackendReply) :
    ∀ (fs : List AVFrame) (d : Decoder), Inv C fs d → mapFind d.consumerStatus name ≠ none →
      (∀ pkt ∈ pkts, pkt.ready = true) →
      ∀ i pkt, pkts[i]? = some pkt →
        (rounds name pkts d)[i]? = some (GetFrameResult.frame (fs.length + i + 1) pkt.decodedFrame) := by
  induction pkts with
  | nil =>
    intro fs d _ _ _ i pkt hi
    simp at hi
  | cons p pkts ih =>
    intro fs d hinv hreg hready i pkt hi
    have hp : p.ready = true := hready p (List.mem_cons_self _ _)
    have hg := GetFrame_after_Decode C fs d p name hinv hC hp hreg
    cases i with
    | zero =>
      simp at hi
      subst hi
      simp [rounds, hg]
    | succ i =>
      simp at hi
      have hinv2 : Inv C (fs ++ [p.decodedFrame]) (GetFrame 0 name (Decode p d).1).1 := by
        apply Inv_GetFrame
        rw [Decode_of_ready p d hp]
        exact Inv_publish C fs d _ hinv
      have hreg2 : mapFind (GetFrame 0 name (Decode p d).1).1.consumerStatus name ≠ none := by
        rw [hg]
        simp [mapFind_mapAssign_self]
      have := ih (fs ++ [p.decodedFrame]) _ hinv2 hreg2
        (fun q hq => hready q (List.mem_cons_of_mem _ hq)) i pkt hi
      simp only [rounds, List.getElem?_cons_succ]
      rw [this]
      simp
      omega

/-- C4: a consumer that is in the registry of a freshly initialised decoder of capacity
`C ≥ 1` before the first frame is decoded, and that calls `GetFrame` with offset 0 after
each of `N` Ready `Decode` calls: every one of its calls completes, none returns `REPEAT`,
and call number `i` (counted from 0) returns the counter `i + 1` and the frame of decode
number `i`. -/
theorem exactly_once_in_order (C : Nat) (dumps : Bool) (ops0 : List Op) (name : String)
    (pkts : List BackendReply) (hC : 1 ≤ C) (hnone : written ops0 = [])
    (hreg : mapFind (run ops0 (fresh C dumps)).consumerStatus name ≠ none)
    (hready : ∀ pkt ∈ pkts, pkt.ready = true) :
    (rounds name pkts (run ops0 (fresh C dumps))).length = pkts.length
    ∧ ∀ i pkt, pkts[i]? = some pkt →
        (rounds name pkts (run ops0 (fresh C dumps)))[i]?
          = some (GetFrameResult.frame (i + 1) pkt.decodedFrame) := by
  refine ⟨rounds_length name pkts _, fun i pkt hi => ?_⟩
  have hinv := Inv_reachable C dumps ops0
  have := rounds_get C name hC pkts (written ops0) _ hinv hreg hready i pkt hi
  rw [hnone] at this
  simpa using this

/-- Scenario A of the specification, an instance of C4: capacity 4, six frames, the sixth
read returns the counter 6 and the sixth frame. -/
theorem exactly_once_in_order_witness :
    (rounds "A" [okReply 0, okReply 1, okReply 2, okReply 3, okReply 4, okReply 5]
        (run [Op.GetFrame 0 "A"] (fresh 4 false)))[5]?
      = some (GetFrameResult.frame 6 { data := 5 }) :=
  (exactly_once_in_order 4 false [Op.GetFrame 0 "A"] "A"
    [okReply 0, okReply 1, okReply 2, okReply 3, okReply 4, okReply 5]
    (by decide) (by decide) (by decide) (by decide)).2 5 (okReply 5) (by decide)

/-- The part of the delivery protocol that holds in every state: right after a `GetFrame`
call of an identity has completed, with a frame or with `REPEAT`, the pending flag of that
identity is false; a further `GetFrame` of the identity waits after any sequence of
operations in which no `Decode` reaches the locked block, and completes once one has. -/
theorem one_delivery_per_signal (d : Decoder) (index : Int) (name : String)
    (hdone : (GetFrame index name d).2 ≠ GetFrameResult.waiting) :
    mapFind (GetFrame index name d).1.consumerStatus name = some false
    ∧ (∀ ops index2, quiet ops →
        (GetFrame index2 name (run ops (GetFrame index name d).1)).2 = GetFrameResult.waiting)
    ∧ (∀ ops pkt index2, quiet ops → pkt.ready = true →
        (GetFrame index2 name (Decode pkt (run ops (GetFrame index name d).1)).1).2
          ≠ GetFrameResult.waiting) := by
  have hflag : mapFind d.consumerStatus name = some true := by
    by_contra hn
    rw [GetFrame_not_pending index name d hn] at hdone
    exact hdone rfl
  have hfalse : mapFind (GetFrame index name d).1.consumerStatus name = some false := by
    rw [GetFrame_pending index name d hflag]
    exact mapFind_mapAssign_self _ _ _
  refine ⟨hfalse, ?_, ?_⟩
  · intro ops index2 hq
    have hkeep := quiet_keeps_flag name ops _ hq hfalse
    rw [GetFrame_not_pending index2 name _ (by rw [hkeep]; simp)]
  · intro ops pkt index2 hq hr
    have hkeep := quiet_keeps_flag name ops _ hq hfalse
    rw [Decode_of_ready pkt _ hr,
      GetFrame_pending index2 name _ (publish_flag _ _ name (by rw [hkeep]; simp))]
    exact deliver_ne_waiting _ _

/-- After "A" has read the second frame, its next call waits, also after a `Decode` that
was not ready and a call of another consumer. -/
theorem one_delivery_per_signal_witness :
    (GetFrame 0 "A" (run [Op.Decode { okReply 2 with recvSts := AVERROR_EAGAIN },
        Op.GetFrame 0 "B"] (GetFrame 0 "A" twoFrames).1)).2 = GetFrameResult.waiting :=
  (one_delivery_per_signal twoFrames 0 "A" (by decide)).2.1
    [Op.Decode { okReply 2 with recvSts := AVERROR_EAGAIN }, Op.GetFrame 0 "B"] 0
    (by
      intro pkt hp
      simp only [List.mem_cons, List.mem_singleton, Op.Decode.injEq, List.not_mem_nil,
        or_false] at hp
      rcases hp with hp | hp
      · subst hp
        decide
      · cases hp)

/-- Late registration as far as it holds: in a state reached from a freshly initialised
decoder of capacity `C ≥ 1` in which `M` frames have been written, a `GetFrame` call of an
identity that is not in the registry adds it with flag false and waits; the call keeps
waiting as long as no `Decode` reaches the locked block, and after the next `Decode` that
does, a call with offset 0 returns the counter `M + 1` and the frame of that `Decode`. -/
theorem late_registration (C : Nat) (dumps : Bool) (ops : List Op) (name : String)
    (index : Int) (hC : 1 ≤ C)
    (hnew : mapFind (run ops (fresh C dumps)).consumerStatus name = none) :
    (GetFrame index name (run ops (fresh C dumps))).2 = GetFrameResult.waiting
    ∧ mapFind (GetFrame index name (run ops (fresh C dumps))).1.consumerStatus name = some false
    ∧ (∀ ops2, quiet ops2 →
        (GetFrame index name (run ops2 (GetFrame index name (run ops (fresh C dumps))).1)).2
          = GetFrameResult.waiting)
    ∧ (∀ ops2 pkt, quiet ops2 → pkt.ready = true →
        (GetFrame 0 name
          (Decode pkt (run ops2 (GetFrame index name (run ops (fresh C dumps))).1)).1).2
          = GetFrameResult.frame ((written ops).length + 1) pkt.decodedFrame) := by
  have hnp : mapFind (run ops (fresh C dumps)).consumerStatus name ≠ some true := by
    rw [hnew]
    simp
  have hfalse :
      mapFind (GetFrame index name (run ops (fresh C dumps))).1.consumerStatus name
        = some false := by
    rw [GetFrame_not_pending index name _ hnp]
    simp [mapFind_register_self, hnew]
  refine ⟨by rw [GetFrame_not_pending index name _ hnp], hfalse, ?_, ?_⟩
  · intro ops2 hq
    have hkeep := quiet_keeps_flag name ops2 _ hq hfalse
    rw [GetFrame_not_pending index name _ (by rw [hkeep]; simp)]
  · intro ops2 pkt hq hr
    have hkeep := quiet_keeps_flag name ops2 _ hq hfalse
    have hstate : run ops2 (GetFrame index name (run ops (fresh C dumps))).1
        = run (ops ++ Op.GetFrame index name :: ops2) (fresh C dumps) := by
      rw [run_append]
      rfl
    have hinv := Inv_reachable C dumps (ops ++ Op.GetFrame index name :: ops2)
    have hw : written (ops ++ Op.GetFrame index name :: ops2) = written ops := by
      rw [written_append]
      simp [written, written_quiet ops2 hq]
    rw [hw, ← hstate] at hinv
    rw [GetFrame_after_Decode C (written ops) _ pkt name hinv hC hr (by rw [hkeep]; simp)]

/-- The consumer "B" arrives after two frames and receives the third one, with counter 3. -/
theorem late_registration_witness :
    (GetFrame 0 "B" (Decode (okReply 2) (run [] (GetFrame 0 "B" (run
        [Op.GetFrame 0 "A", Op.Decode (okReply 0), Op.Decode (okReply 1)]
        (fresh 2 false))).1)).1).2
      = GetFrameResult.frame 3 { data := 2 } :=
  (late_registration 2 false [Op.GetFrame 0 "A", Op.Decode (okReply 0), Op.Decode (okReply 1)]
    "B" 0 (by decide) (by decide)).2.2.2 [] (okReply 2)
    (fun _ hp => absurd hp (List.not_mem_nil _)) (by decide)

/-- C6 (evaluation at the failing input): capacity 2, two frames decoded, "A" reads the
second one; then a `Decode` whose receive step reports `AVERROR_INVALIDDATA` returns that
error, and the next `GetFrame` of "A" completes all the same, with counter 3 and the frame
object of the failed call, although no successful `Decode` has taken place. -/
theorem failed_Decode_wakes_consumer :
    (GetFrame 0 "A" twoFrames).2 = GetFrameResult.frame 2 { data := 1 }
    ∧ (Decode (corruptReply 7) (GetFrame 0 "A" twoFrames).1).2 = AVERROR_INVALIDDATA
    ∧ (GetFrame 0 "A" (Decode (corruptReply 7) (GetFrame 0 "A" twoFrames).1).1).2
      = GetFrameResult.frame 3 { data := 7 } := by
  decide

/-- C7 (evaluation at the failing input): capacity 2, two frames decoded, then "B" calls
`GetFrame` for the first time and waits with flag false; a `Decode` whose receive step
reports `AVERROR_INVALIDDATA` returns that error, and the call of "B" completes all the
same, with counter 3 and the frame object of the failed call. -/
theorem failed_Decode_wakes_late_consumer :
    mapFind twoFrames.consumerStatus "B" = none
    ∧ (GetFrame 0 "B" twoFrames).2 = GetFrameResult.waiting
    ∧ mapFind (GetFrame 0 "B" twoFrames).1.consumerStatus "B" = some false
    ∧ (Decode (corruptReply 7) (GetFrame 0 "B" twoFrames).1).2 = AVERROR_INVALIDDATA
    ∧ (GetFrame 0 "B" (Decode (corruptReply 7) (GetFrame 0 "B" twoFrames).1).1).2
      = GetFrameResult.frame 3 { data := 7 } := by
  decide

/-- One order of C9: after a `Decode` of the Ready class `A` reads, then `B`. -/
theorem broadcast_in_order (C : Nat) (fs : List AVFrame) (d : Decoder) (A B : String)
    (pkt : BackendReply) (h : Inv C fs d) (hC : 0 < C) (hAB : A ≠ B) (hr : pkt.ready = true)
    (hA : mapFind d.consumerStatus A ≠ none) (hB : mapFind d.consumerStatus B ≠ none) :
    (GetFrame 0 A (Decode pkt d).1).2 = GetFrameResult.frame (fs.length + 1) pkt.decodedFrame
    ∧ (GetFrame 0 B (GetFrame 0 A (Decode pkt d).1).1).2
        = GetFrameResult.frame (fs.length + 1) pkt.decodedFrame
    ∧ (GetFrame 0 A (Decode pkt d).1).1.framesBuffer = (Decode pkt d).1.framesBuffer
    ∧ (GetFrame 0 A (Decode pkt d).1).1.currentFrame = (Decode pkt d).1.currentFrame
    ∧ mapFind (GetFrame 0 A (Decode pkt d).1).1.consumerStatus B
        = mapFind (Decode pkt d).1.consumerStatus B := by
  have hg := GetFrame_after_Decode C fs d pkt A h hC hr hA
  have hpB := publish_flag pkt.decodedFrame d B hB
  have hBflag : mapFind (GetFrame 0 A (Decode pkt d).1).1.consumerStatus B = some true := by
    rw [hg]
    simp only []
    rw [mapFind_mapAssign_ne _ _ _ _ hAB]
    exact hpB
  refine ⟨by rw [hg], ?_, by rw [hg, Decode_of_ready pkt d hr],
    by rw [hg, Decode_of_ready pkt d hr], ?_⟩
  · rw [GetFrame_pending 0 B _ hBflag, hg]
    exact deliver_newest C fs d pkt.decodedFrame h hC
  · rw [hBflag, Decode_of_ready pkt d hr, hpB]

/-- C9: two distinct identities that are both in the registry of a running decoder of
capacity `C ≥ 1` before a `Decode` of the Ready class: after it, the next `GetFrame` with
offset 0 of each, in either order, completes with the same counter and the same frame, and
the call of one changes neither the buffer, nor the counter, nor the flag of the other. -/
theorem broadcast_to_all (C : Nat) (dumps : Bool) (ops : List Op) (A B : String)
    (pkt : BackendReply) (hC : 1 ≤ C) (hAB : A ≠ B) (hr : pkt.ready = true)
    (hA : mapFind (run ops (fresh C dumps)).consumerStatus A ≠ none)
    (hB : mapFind (run ops (fresh C dumps)).consumerStatus B ≠ none) :
    ((GetFrame 0 A (Decode pkt (run ops (fresh C dumps))).1).2
        = GetFrameResult.frame ((written ops).length + 1) pkt.decodedFrame
      ∧ (GetFrame 0 B (GetFrame 0 A (Decode pkt (run ops (fresh C dumps))).1).1).2
        = GetFrameResult.frame ((written ops).length + 1) pkt.decodedFrame
      ∧ (GetFrame 0 A (Decode pkt (run ops (fresh C dumps))).1).1.framesBuffer
        = (Decode pkt (run ops (fresh C dumps))).1.framesBuffer
      ∧ (GetFrame 0 A (Decode pkt (run ops (fresh C dumps))).1).1.currentFrame
        = (Decode pkt (run ops (fresh C dumps))).1.currentFrame
      ∧ mapFind (GetFrame 0 A (Decode pkt (run ops (fresh C dumps))).1).1.consumerStatus B
        = mapFind (Decode pkt (run ops (fresh C dumps))).1.consumerStatus B)
    ∧ ((GetFrame 0 B (Decode pkt (run ops (fresh C dumps))).1).2
        = GetFrameResult.frame ((written ops).length + 1) pkt.decodedFrame
      ∧ (GetFrame 0 A (GetFrame 0 B (Decode pkt (run ops (fresh C dumps))).1).1).2
        = GetFrameResult.frame ((written ops).length + 1) pkt.decodedFrame
      ∧ (GetFrame 0 B (Decode pkt (run ops (fresh C dumps))).1).1.framesBuffer
        = (Decode pkt (run ops (fresh C dumps))).1.framesBuffer
      ∧ (GetFrame 0 B (Decode pkt (run ops (fresh C dumps))).1).1.currentFrame
        = (Decode pkt (run ops (fresh C dumps))).1.currentFrame
      ∧ mapFind (GetFrame 0 B (Decode pkt (run ops (fresh C dumps))).1).1.consumerStatus A
        = mapFind (Decode pkt (run ops (fresh C dumps))).1.consumerStatus A) :=
  ⟨broadcast_in_order C (written ops) _ A B pkt (Inv_reachable C dumps ops) hC hAB hr hA hB,
    broadcast_in_order C (written ops) _ B A pkt (Inv_reachable C dumps ops) hC (Ne.symm hAB)
      hr hB hA⟩

/-- Scenario C of the specification, an instance of C9: "A" and "B" registered before any
decode, one `Decode`; "B", reading after "A", gets the counter 1 and the first frame. -/
theorem broadcast_to_all_witness :
    (GetFrame 0 "B" (GetFrame 0 "A" (Decode (okReply 0)
        (run [Op.GetFrame 0 "A", Op.GetFrame 0 "B"] (fresh 2 false))).1).1).2
      = GetFrameResult.frame 1 { data := 0 } :=
  (broadcast_to_all 2 false [Op.GetFrame 0 "A", Op.GetFrame 0 "B"] "A" "B" (okReply 0)
    (by decide) (by decide) (by decide) (by decide) (by decide)).1.2.1

/-! ## Close and Init (C8) -/

/-- C8 (as amended): for every decoder state (a closed decoder having an empty buffer),
`Close` leaves no slot holding a frame and keeps the consumer registry and the sequence
counter as they were; a following successful `Init` with capacity `C` leaves `C` empty
slots, and apart from the registry and the counter, which still have the values they had
before `Close`, the state is the fresh one. -/
theorem close_init_cycle (CHECK_STATUS : Int → Bool) (input : DecoderParameters)
    (b : InitBackend) (d : Decoder) (hwf : d.isClosed = true → d.framesBuffer = [])
    (h1 : CHECK_STATUS b.parametersToContext = false)
    (h2 : CHECK_STATUS b.cuCtxGetCurrent = false) (h3 : CHECK_STATUS b.hwdeviceCtxInit = false)
    (h4 : CHECK_STATUS b.avcodecOpen2 = false) :
    (Close d).framesBuffer = []
    ∧ (Close d).consumerStatus = d.consumerStatus
    ∧ (Close d).currentFrame = d.currentFrame
    ∧ Init CHECK_STATUS input b (Close d)
        = ({ fresh input.bufferDeep input.enableDumps with
              currentFrame := d.currentFrame, consumerStatus := d.consumerStatus },
            b.avcodecOpen2) := by
  have hbuf : (Close d).framesBuffer = [] := by
    unfold Close
    cases hc : d.isClosed with
    | true => simpa using hwf hc
    | false => simp
  have hreg : (Close d).consumerStatus = d.consumerStatus := by
    unfold Close
    split <;> rfl
  have hcnt : (Close d).currentFrame = d.currentFrame := by
    unfold Close
    split <;> rfl
  refine ⟨hbuf, hreg, hcnt, ?_⟩
  simp [Init, h1, h2, h3, h4, fresh_eq, resize, hbuf, hreg, hcnt]

/-- An instance of the amended C8 on the decoder with two frames and consumer "A". -/
theorem close_init_cycle_witness :
    (Close twoFrames).framesBuffer = []
    ∧ (Close twoFrames).consumerStatus = twoFrames.consumerStatus
    ∧ (Close twoFrames).currentFrame = twoFrames.currentFrame
    ∧ Init nonZero { bufferDeep := 3, enableDumps := false } okInit (Close twoFrames)
        = ({ fresh 3 false with
              currentFrame := twoFrames.currentFrame
              consumerStatus := twoFrames.consumerStatus }, 0) :=
  close_init_cycle nonZero { bufferDeep := 3, enableDumps := false } okInit twoFrames
    (by decide) (by decide) (by decide) (by decide) (by decide)

/-- C8 fails as stated: on the decoder with two frames and consumer "A", the registry is
not empty after `Close`, and after the following successful `Init` with capacity 3 the
state is not the fresh one: the registry still holds "A" with its flag set and the counter
is still 2. -/
theorem close_init_keeps_registry_and_counter :
    (Close twoFrames).consumerStatus = [("A", true)]
    ∧ (Init nonZero { bufferDeep := 3, enableDumps := false } okInit (Close twoFrames)).1
        ≠ fresh 3 false
    ∧ (Init nonZero { bufferDeep := 3, enableDumps := false } okInit
        (Close twoFrames)).1.consumerStatus = [("A", true)]
    ∧ (Init nonZero { bufferDeep := 3, enableDumps := false } okInit
        (Close twoFrames)).1.currentFrame = 2 := by
  decide

/-- After a `Close` and `Init` cycle the stale flag and counter let a `GetFrame` through to
a slot that was never written. -/
theorem GetFrame_after_close_init :
    (GetFrame 0 "A"
      (Init nonZero { bufferDeep := 3, enableDumps := false } okInit (Close twoFrames)).1).2
      = GetFrameResult.invalidRead 1 := by
  decide

end TensorStream
